import Mathlib

/-!
Shallow embedding of the game `fractal` (src/main.go): the Koch-curve
subdivision (`expandLine` and the chained pass), the zoom transform,
and the per-tick `Game.Update` pipeline, together with proofs of the
spec's claims about them.  `float64` quantities are modelled over `ℝ`.
-/

namespace Fractal

/-- 2D vector. Models `mathutil.Vector2D` from the external
`tsujio/game-util` dependency (component-wise vector semantics:
`Add`/`Sub` component-wise, `Mul`/`Div` by a scalar, `Rotate` by an
angle with the standard rotation matrix, `Norm` the Euclidean norm and
`Normalize` division by the norm). -/
@[ext]
structure Vector2D where
  X : ℝ
  Y : ℝ

noncomputable def Vector2D.Add (v w : Vector2D) : Vector2D := ⟨v.X + w.X, v.Y + w.Y⟩

noncomputable def Vector2D.Sub (v w : Vector2D) : Vector2D := ⟨v.X - w.X, v.Y - w.Y⟩

noncomputable def Vector2D.Mul (v : Vector2D) (a : ℝ) : Vector2D := ⟨v.X * a, v.Y * a⟩

noncomputable def Vector2D.Div (v : Vector2D) (a : ℝ) : Vector2D := ⟨v.X / a, v.Y / a⟩

noncomputable def Vector2D.Rotate (v : Vector2D) (t : ℝ) : Vector2D :=
  ⟨v.X * Real.cos t - v.Y * Real.sin t, v.X * Real.sin t + v.Y * Real.cos t⟩

noncomputable def Vector2D.Norm (v : Vector2D) : ℝ := Real.sqrt (v.X ^ 2 + v.Y ^ 2)

noncomputable def Vector2D.Normalize (v : Vector2D) : Vector2D := v.Div v.Norm

/-- `screenWidth` constant from src/main.go. -/
noncomputable def screenWidth : ℝ := 640

/-- `screenHeight` constant from src/main.go. -/
noncomputable def screenHeight : ℝ := 480

/-- `coinHitZ` constant from src/main.go. -/
noncomputable def coinHitZ : ℝ := 180

/-- `playerHitR` constant from src/main.go. -/
noncomputable def playerHitR : ℝ := 5.0

/-- `expandLine` from src/main.go: one Koch subdivision of the segment
`(s, t)`. -/
noncomputable def expandLine (s t : Vector2D) : List Vector2D :=
  let p1 := ((t.Sub s).Div 3.0).Add s
  let p2 := (((t.Sub s).Div 3.0).Mul 2.0).Add s
  let p3 := ((p2.Sub p1).Rotate (-(Real.pi / 3))).Add p1
  [s, p1, p3, p2, t]

/-- `zoom` from src/main.go. -/
noncomputable def zoom (p c : Vector2D) (s : ℝ) : Vector2D := ((p.Sub c).Mul s).Add c

/-- The tail of the chained subdivision loop (src/main.go, the
`for i := 0; i < len(g.points)-1; i++` loop body with `i > 0`, where the
first point of each detour is dropped). -/
noncomputable def expandSegs : List Vector2D → List Vector2D
  | s :: t :: rest => (expandLine s t).tail ++ expandSegs (t :: rest)
  | _ => []

/-- One full chained subdivision pass over a polyline: the `i = 0`
iteration keeps all 5 points of the detour, every later iteration drops
the detour's first point (src/main.go lines 290-301 and 645-658). -/
noncomputable def expandPoints : List Vector2D → List Vector2D
  | s :: t :: rest => expandLine s t ++ expandSegs (t :: rest)
  | _ => []

lemma expandLine_tail_length (s t : Vector2D) : (expandLine s t).tail.length = 4 := by
  simp [expandLine]

lemma expandSegs_length (t : Vector2D) (rest : List Vector2D) :
    (expandSegs (t :: rest)).length = 4 * rest.length := by
  induction rest generalizing t with
  | nil => simp [expandSegs]
  | cons r rs ih =>
      simp only [expandSegs, List.length_append, expandLine_tail_length, ih r,
        List.length_cons]
      ring

/-- Length of one full chained pass: `4 * N + 1` points for `N` segments. -/
lemma expandPoints_length (ps : List Vector2D) (h : 2 ≤ ps.length) :
    (expandPoints ps).length = 4 * (ps.length - 1) + 1 := by
  match ps with
  | [] => simp at h
  | [s] => simp at h
  | s :: t :: rest =>
      simp only [expandPoints, List.length_append, expandSegs_length, List.length_cons]
      simp [expandLine]
      omega

/-- C1: one subdivision pass on a segment `(s, t)` returns exactly 5 points:
`s` itself, the point one third along the segment, the spike point obtained
by rotating the two-thirds point by 60 degrees (angle `-π/3`) about the
one-third point, the point two thirds along, and `t`; and one full chained
pass over a polyline of `N ≥ 1` segments (dropping each detour's first point
except the first segment's) yields exactly `4 * N + 1` points. -/
theorem expandLine_koch (s t : Vector2D) :
    (expandLine s t).length = 5 ∧
    expandLine s t =
      [s,
       s.Add ((t.Sub s).Mul (1 / 3)),
       (((s.Add ((t.Sub s).Mul (2 / 3))).Sub (s.Add ((t.Sub s).Mul (1 / 3)))).Rotate
          (-(Real.pi / 3))).Add (s.Add ((t.Sub s).Mul (1 / 3))),
       s.Add ((t.Sub s).Mul (2 / 3)),
       t] ∧
    ∀ ps : List Vector2D, 2 ≤ ps.length →
      (expandPoints ps).length = 4 * (ps.length - 1) + 1 := by
  refine ⟨by simp [expandLine], ?_, fun ps h => expandPoints_length ps h⟩
  have h1 : ((t.Sub s).Div 3.0).Add s = s.Add ((t.Sub s).Mul (1 / 3)) := by
    ext <;> simp [Vector2D.Add, Vector2D.Sub, Vector2D.Mul, Vector2D.Div] <;> ring
  have h2 : (((t.Sub s).Div 3.0).Mul 2.0).Add s = s.Add ((t.Sub s).Mul (2 / 3)) := by
    ext <;> simp [Vector2D.Add, Vector2D.Sub, Vector2D.Mul, Vector2D.Div] <;> ring
  simp only [expandLine]
  rw [h1, h2]

/-- C1 witness: a concrete 2-segment polyline expands to `4 * 2 + 1 = 9`
points in one chained pass. -/
theorem expandLine_koch_witness :
    2 ≤ ([⟨0, 0⟩, ⟨3, 0⟩, ⟨9, 0⟩] : List Vector2D).length ∧
    (expandPoints [⟨0, 0⟩, ⟨3, 0⟩, ⟨9, 0⟩]).length =
      4 * (([⟨0, 0⟩, ⟨3, 0⟩, ⟨9, 0⟩] : List Vector2D).length - 1) + 1 :=
  ⟨by norm_num,
   (expandLine_koch ⟨0, 0⟩ ⟨0, 0⟩).2.2 [⟨0, 0⟩, ⟨3, 0⟩, ⟨9, 0⟩] (by norm_num)⟩

/-- C3: `zoom p c s = c + (p - c) * s`; the center is a fixpoint of the
zoom for every scale; and composing two zooms about the same center is
the zoom by the product of the scales. -/
theorem zoom_spec (p c : Vector2D) (s s1 s2 : ℝ) :
    zoom p c s = c.Add ((p.Sub c).Mul s) ∧
    zoom c c s = c ∧
    zoom (zoom p c s1) c s2 = zoom p c (s1 * s2) := by
  refine ⟨?_, ?_, ?_⟩ <;>
    · ext <;> simp [zoom, Vector2D.Add, Vector2D.Sub, Vector2D.Mul] <;> ring

/-- Coin entity from src/main.go (the embedded `Vector3D` flattened to
`X`, `Y`, `Z`). -/
structure Coin where
  X : ℝ
  Y : ℝ
  Z : ℝ
  vr : ℝ
  hit : Bool

/-- CoinHitEffect entity from src/main.go. -/
structure CoinHitEffect where
  pos : Vector2D
  ticks : ℕ
  gain : ℤ

/-- Player entity from src/main.go (`pos` is the embedded `Vector2D`). -/
structure Player where
  pos : Vector2D
  v : Vector2D
  r : ℝ
  life : ℝ

/-- The three game modes of src/main.go. -/
inductive GameMode where
  | Title
  | Playing
  | GameOver
deriving DecidableEq

/-- The modelled fields of the `Game` struct from src/main.go (the
identifiers, touch context and the seeded random source are abstracted
into the per-tick `Input` oracle below). -/
structure Game where
  mode : GameMode
  ticksFromModeStart : ℕ
  score : ℤ
  points : List Vector2D
  player : Player
  coins : List Coin
  coinHitEffects : List CoinHitEffect
  zoomScale : ℝ
  ticksFromAllPointsOut : ℕ

/-- Per-tick external input: `touched` is `touchContext.IsJustTouched()`;
`spawnRoll` abstracts the outcome of `g.random.Int()%rate == 0`; and
`samplePoint` abstracts the boundary point chosen by the 100-iteration
`lo.Sample` loop. -/
structure Input where
  touched : Bool
  spawnRoll : Bool
  samplePoint : Vector2D

/-- `Game.setNextMode` from src/main.go. -/
def setNextMode (g : Game) (m : GameMode) : Game :=
  { g with mode := m, ticksFromModeStart := 0 }

/-- The `g.ticksFromModeStart++` at the top of `Game.Update`. -/
def tickIncr (g : Game) : Game :=
  { g with ticksFromModeStart := g.ticksFromModeStart + 1 }

/-- The on-screen test of the boundary-trimming loops (src/main.go lines
372 and 383): the expanded rectangle `(-50, width+50) × (-50, height+50)`. -/
abbrev insideRect (p : Vector2D) : Prop :=
  p.X > -50 ∧ p.X < screenWidth + 50 ∧ p.Y > -50 ∧ p.Y < screenHeight + 50

/-- The front-trimming scan: `some` of the suffix starting at the first
on-screen point, or `none` when every point is off-screen. -/
noncomputable def trimFrontAux : List Vector2D → Option (List Vector2D)
  | [] => none
  | p :: rest => if insideRect p then some (p :: rest) else trimFrontAux rest

/-- The first trimming loop of `Game.Update` (src/main.go lines 370-380):
cut the points before the first on-screen point; when the loop finishes
without a break (every point off-screen, list nonempty) and the off-screen
counter is zero, increment it. -/
noncomputable def trimFrontStep (ps : List Vector2D) (tfapo : ℕ) : List Vector2D × ℕ :=
  match trimFrontAux ps with
  | some qs => (qs, tfapo)
  | none => (ps, if tfapo = 0 ∧ ps.isEmpty = false then tfapo + 1 else tfapo)

/-- The second trimming loop of `Game.Update` (src/main.go lines 381-387):
cut the points after the last on-screen point; leave the list unchanged
when every point is off-screen. -/
noncomputable def trimBack (ps : List Vector2D) : List Vector2D :=
  match trimFrontAux ps.reverse with
  | some qs => qs.reverse
  | none => ps

/-- The coin-player collision test (src/main.go lines 344-345). -/
abbrev hitCond (pos : Vector2D) (r : ℝ) (c : Coin) : Prop :=
  c.vr > 1.0 ∧ (c.X - pos.X) ^ 2 + (c.Y - pos.Y) ^ 2 < (c.vr + r) ^ 2

/-- Result of the coin-hit loop: the updated coins, score, effects and life. -/
structure HitAcc where
  coins : List Coin
  score : ℤ
  effects : List CoinHitEffect
  life : ℝ

/-- The coin-hit loop of `Game.Update` (src/main.go lines 343-368): each
colliding coin is marked hit, adds `1000` points when `c.Z < coinHitZ` and
`200` otherwise, spawns a score effect, and heals the player by 50 life
capped at 100. -/
noncomputable def processHits (pos : Vector2D) (r : ℝ) :
    List Coin → ℤ → List CoinHitEffect → ℝ → HitAcc
  | [], score, effs, life => ⟨[], score, effs, life⟩
  | c :: cs, score, effs, life =>
      if hitCond pos r c then
        let gain : ℤ := if c.Z < coinHitZ then 1000 else 200
        let life1 := if life + 50 > 100.0 then 100.0 else life + 50
        let rest := processHits pos r cs (score + gain) (effs ++ [⟨⟨c.X, c.Y⟩, 0, gain⟩]) life1
        ⟨{ c with hit := true } :: rest.coins, rest.score, rest.effects, rest.life⟩
      else
        let rest := processHits pos r cs score effs life
        ⟨c :: rest.coins, rest.score, rest.effects, rest.life⟩

/-- The velocity acceleration and clamp of the Playing tick (src/main.go
lines 283-288). -/
noncomputable def velAfterAccel (v : Vector2D) : Vector2D :=
  let v1 := if v.Norm < 2.0 then v.Mul 1.02 else v
  if v1.Norm > 2.0 then v1.Normalize.Mul 2.0 else v1

/-- The player position clamp to the screen rectangle (src/main.go lines
308-319). -/
noncomputable def clampScreen (p : Vector2D) : Vector2D :=
  let x1 := if p.X < 0 then 0 else p.X
  let x2 := if x1 > screenWidth then screenWidth else x1
  let y1 := if p.Y < 0 then 0 else p.Y
  let y2 := if y1 > screenHeight then screenHeight else y1
  ⟨x2, y2⟩

/-- The per-tick coin transform (src/main.go lines 329-336): position
zoomed about the player, depth advanced by the zoom scale, radius derived
from the new depth. -/
noncomputable def updateCoin (center : Vector2D) (zs : ℝ) (c : Coin) : Coin :=
  let pos := zoom ⟨c.X, c.Y⟩ center zs
  let z := c.Z + 1.0 * zs
  { X := pos.X, Y := pos.Y, Z := z, vr := 10.0 * z / coinHitZ, hit := c.hit }

/-- A freshly spawned coin (src/main.go lines 272-279). -/
noncomputable def newCoin (p : Vector2D) : Coin :=
  { X := p.X, Y := p.Y, Z := 0.000001, vr := 0, hit := false }

/-- The off-screen counter self-increment at the top of the Playing tick
(src/main.go lines 235-237). -/
def playingTfapo1 (g : Game) : ℕ :=
  if g.ticksFromAllPointsOut > 0 then g.ticksFromAllPointsOut + 1
  else g.ticksFromAllPointsOut

/-- The zoom-scale growth and tier clamp (src/main.go lines 239-248);
`g` is the state after the tick counter increment. -/
noncomputable def playingZoomScale (g : Game) : ℝ :=
  let zs := g.zoomScale * 1.00002
  if g.ticksFromModeStart < 60 * 60 then min zs 1.010
  else if g.ticksFromModeStart < 75 * 60 then min zs 1.015
  else if g.ticksFromModeStart < 90 * 60 then min zs 1.020
  else min zs 1.03

/-- The coin-spawn step (src/main.go lines 250-281), with the random roll
and the sampled boundary point supplied by the input oracle. -/
noncomputable def playingCoins1 (g : Game) (i : Input) : List Coin :=
  if i.spawnRoll then g.coins ++ [newCoin i.samplePoint] else g.coins

/-- The player velocity after acceleration, clamp and the optional tap
rotation by `π/2` (src/main.go lines 283-288 and 303-305). -/
noncomputable def playingVel (g : Game) (i : Input) : Vector2D :=
  if i.touched then (velAfterAccel g.player.v).Rotate (Real.pi / 2)
  else velAfterAccel g.player.v

/-- The player position after the move and screen clamp (src/main.go
lines 307-319). -/
noncomputable def playingPos (g : Game) (i : Input) : Vector2D :=
  clampScreen (g.player.pos.Add (playingVel g i))

/-- The life decrement (src/main.go line 321). -/
noncomputable def playingLife1 (g : Game) : ℝ := g.player.life - 0.2

/-- The conditional subdivision pass (src/main.go lines 290-301). -/
noncomputable def playingPts1 (g : Game) : List Vector2D :=
  if g.points.length < 500 then expandPoints g.points else g.points

/-- The conditional zoom of the boundary points (src/main.go lines
323-327): applied only while the off-screen counter is zero, about the
player's new position. -/
noncomputable def playingPts2 (g : Game) (i : Input) : List Vector2D :=
  if playingTfapo1 g = 0 then
    (playingPts1 g).map (fun p => zoom p (playingPos g i) (playingZoomScale g))
  else playingPts1 g

/-- The coin transform map (src/main.go lines 329-336). -/
noncomputable def playingCoins2 (g : Game) (i : Input) : List Coin :=
  (playingCoins1 g i).map (updateCoin (playingPos g i) (playingZoomScale g))

/-- The effect age increment (src/main.go lines 338-341). -/
def playingEffs1 (g : Game) : List CoinHitEffect :=
  g.coinHitEffects.map (fun e => { e with ticks := e.ticks + 1 })

/-- The coin-hit loop applied to this tick's data. -/
noncomputable def playingHit (g : Game) (i : Input) : HitAcc :=
  processHits (playingPos g i) g.player.r (playingCoins2 g i) g.score
    (playingEffs1 g) (playingLife1 g)

/-- Both boundary-trimming loops applied to this tick's points, with the
off-screen counter they produce. -/
noncomputable def playingTrim (g : Game) (i : Input) : List Vector2D × ℕ :=
  (trimBack (trimFrontStep (playingPts2 g i) (playingTfapo1 g)).1,
   (trimFrontStep (playingPts2 g i) (playingTfapo1 g)).2)

/-- The coin cleanup filter (src/main.go lines 389-394). -/
abbrev coinKeep (c : Coin) : Prop :=
  c.hit = false ∧ c.X > -50 ∧ c.X < screenWidth + 50 ∧
  c.Y > -50 ∧ c.Y < screenHeight + 50 ∧ c.Z < 1000

/-- The whole Playing tick except the final game-over check (src/main.go
lines 226-398); `g` is the state after the tick counter increment. -/
noncomputable def playingBody (g : Game) (i : Input) : Game :=
  { g with
    zoomScale := playingZoomScale g
    coins := (playingHit g i).coins.filter (fun c => decide (coinKeep c))
    player := { pos := playingPos g i, v := playingVel g i, r := g.player.r,
                life := (playingHit g i).life }
    points := (playingTrim g i).1
    coinHitEffects := (playingHit g i).effects.filter (fun e => decide (e.ticks < 60))
    score := (playingHit g i).score
    ticksFromAllPointsOut := (playingTrim g i).2 }

/-- The Playing tick including the game-over transition (src/main.go
lines 400-411). -/
noncomputable def updatePlaying (g : Game) (i : Input) : Game :=
  if (playingBody g i).player.life ≤ 0 ∨ (playingBody g i).ticksFromAllPointsOut > 160 then
    setNextMode (playingBody g i) GameMode.GameOver
  else playingBody g i

/-- The 4-point base shape of `Game.initialize` (src/main.go lines 639-643). -/
noncomputable def basePoints : List Vector2D :=
  let p1 : Vector2D := ⟨50, screenHeight - 100⟩
  let p2 : Vector2D := ⟨screenWidth - 50, screenHeight - 100⟩
  let p0 := (((p2.Sub p1).Rotate (Real.pi / 3)).Normalize.Mul 150).Add p1
  let p3 := (((p1.Sub p2).Rotate (-(Real.pi / 3))).Normalize.Mul 150).Add p2
  [p0, p1, p2, p3]

/-- The state produced by `Game.initialize` (src/main.go lines 600-661):
fresh player, empty coin and effect lists, zoom scale 1, the base shape
subdivided 5 times, and Title mode. -/
noncomputable def initGame : Game :=
  { mode := GameMode.Title
    ticksFromModeStart := 0
    score := 0
    points :=
      expandPoints (expandPoints (expandPoints (expandPoints (expandPoints basePoints))))
    player := { pos := ⟨screenWidth / 2, screenHeight / 2 + 10⟩, v := ⟨0, 0.01⟩,
                r := playerHitR, life := 100.0 }
    coins := []
    coinHitEffects := []
    zoomScale := 1.0
    ticksFromAllPointsOut := 0 }

/-- `Game.Update` from src/main.go: increment the per-mode tick counter,
then dispatch on the mode (Title waits for a touch; GameOver reinitializes
after a 60-tick cooldown and a touch). -/
noncomputable def update (g : Game) (i : Input) : Game :=
  match g.mode with
  | GameMode.Title =>
      if i.touched then setNextMode (tickIncr g) GameMode.Playing else tickIncr g
  | GameMode.Playing => updatePlaying (tickIncr g) i
  | GameMode.GameOver =>
      if (tickIncr g).ticksFromModeStart > 60 ∧ i.touched then initGame else tickIncr g

lemma updatePlaying_player (g : Game) (i : Input) :
    (updatePlaying g i).player = (playingBody g i).player := by
  unfold updatePlaying; split <;> rfl

lemma updatePlaying_points (g : Game) (i : Input) :
    (updatePlaying g i).points = (playingTrim g i).1 := by
  unfold updatePlaying; split <;> rfl

lemma updatePlaying_score (g : Game) (i : Input) :
    (updatePlaying g i).score = (playingHit g i).score := by
  unfold updatePlaying; split <;> rfl

lemma updatePlaying_zoomScale (g : Game) (i : Input) :
    (updatePlaying g i).zoomScale = playingZoomScale g := by
  unfold updatePlaying; split <;> rfl

lemma updatePlaying_tfapo (g : Game) (i : Input) :
    (updatePlaying g i).ticksFromAllPointsOut = (playingTrim g i).2 := by
  unfold updatePlaying; split <;> rfl

lemma update_of_playing (g : Game) (i : Input) (h : g.mode = GameMode.Playing) :
    update g i = updatePlaying (tickIncr g) i := by
  simp only [update, h]

lemma norm_nonneg (v : Vector2D) : 0 ≤ v.Norm := Real.sqrt_nonneg _

lemma norm_mul (v : Vector2D) (a : ℝ) : (v.Mul a).Norm = |a| * v.Norm := by
  simp only [Vector2D.Norm, Vector2D.Mul]
  rw [show (v.X * a) ^ 2 + (v.Y * a) ^ 2 = a ^ 2 * (v.X ^ 2 + v.Y ^ 2) by ring,
    Real.sqrt_mul (sq_nonneg a), Real.sqrt_sq_eq_abs]

lemma norm_rotate (v : Vector2D) (t : ℝ) : (v.Rotate t).Norm = v.Norm := by
  simp only [Vector2D.Norm, Vector2D.Rotate]
  rw [show (v.X * Real.cos t - v.Y * Real.sin t) ^ 2 +
        (v.X * Real.sin t + v.Y * Real.cos t) ^ 2 =
        (v.X ^ 2 + v.Y ^ 2) * ((Real.sin t) ^ 2 + (Real.cos t) ^ 2) by ring,
    Real.sin_sq_add_cos_sq, mul_one]

lemma norm_div (v : Vector2D) (a : ℝ) : (v.Div a).Norm = |a|⁻¹ * v.Norm := by
  have : v.Div a = v.Mul a⁻¹ := by
    ext <;> simp [Vector2D.Div, Vector2D.Mul, div_eq_mul_inv]
  rw [this, norm_mul, abs_inv]

lemma norm_normalize_mul_two (v : Vector2D) (h : v.Norm ≠ 0) :
    (v.Normalize.Mul 2.0).Norm = 2 := by
  unfold Vector2D.Normalize
  rw [norm_mul, norm_div, abs_of_nonneg (norm_nonneg v), inv_mul_cancel₀ h]
  norm_num

lemma velAfterAccel_norm_le (v : Vector2D) : (velAfterAccel v).Norm ≤ 2 := by
  unfold velAfterAccel
  by_cases h1 : v.Norm < 2.0
  · simp only [if_pos h1]
    by_cases h2 : (v.Mul 1.02).Norm > 2.0
    · rw [if_pos h2, norm_normalize_mul_two _ (ne_of_gt (by linarith : (0:ℝ) < (v.Mul 1.02).Norm))]
    · rw [if_neg h2]
      have h3 : (v.Mul 1.02).Norm ≤ 2.0 := le_of_not_lt h2
      linarith
  · simp only [if_neg h1]
    by_cases h2 : v.Norm > 2.0
    · rw [if_pos h2, norm_normalize_mul_two _ (ne_of_gt (by linarith : (0:ℝ) < v.Norm))]
    · rw [if_neg h2]
      have h3 : v.Norm ≤ 2.0 := le_of_not_lt h2
      linarith

lemma velAfterAccel_of_norm_eq_two (v : Vector2D) (h : v.Norm = 2) :
    velAfterAccel v = v := by
  have h1 : ¬ v.Norm < 2.0 := by rw [h]; norm_num
  have e1 : velAfterAccel v = if v.Norm > 2.0 then v.Normalize.Mul 2.0 else v := by
    simp only [velAfterAccel, if_neg h1]
  rw [e1, if_neg (show ¬ v.Norm > 2.0 by rw [h]; norm_num)]

lemma playingVel_norm_le (g : Game) (i : Input) : (playingVel g i).Norm ≤ 2 := by
  unfold playingVel
  split
  · rw [norm_rotate]; exact velAfterAccel_norm_le _
  · exact velAfterAccel_norm_le _

lemma playingVel_no_touch (g : Game) (i : Input) (h : i.touched = false) :
    playingVel g i = velAfterAccel g.player.v := by
  simp [playingVel, h]

/-- C5: after every Playing tick the magnitude of the player's velocity is
at most 2.0; and when the magnitude is 2.0 at the start of a Playing tick
with no tap input, it is still exactly 2.0 after the tick (so it never
drops below 2.0 once reached). -/
theorem velocity_clamp (g : Game) (i : Input) (h : g.mode = GameMode.Playing) :
    ((update g i).player.v).Norm ≤ 2 ∧
    (g.player.v.Norm = 2 → i.touched = false → ((update g i).player.v).Norm = 2) := by
  have e : (update g i).player.v = playingVel (tickIncr g) i := by
    rw [update_of_playing g i h, updatePlaying_player]
    rfl
  rw [e]
  refine ⟨playingVel_norm_le _ _, fun h2 ht => ?_⟩
  rw [playingVel_no_touch _ _ ht]
  show (velAfterAccel g.player.v).Norm = 2
  rw [velAfterAccel_of_norm_eq_two _ h2, h2]

/-- A concrete Playing-mode state used by the witnesses. -/
noncomputable def gPlay : Game :=
  { mode := GameMode.Playing
    ticksFromModeStart := 10
    score := 0
    points := [⟨-100, -100⟩, ⟨-100, -100⟩]
    player := { pos := ⟨320, 250⟩, v := ⟨2, 0⟩, r := 5, life := 50 }
    coins := []
    coinHitEffects := []
    zoomScale := 1
    ticksFromAllPointsOut := 5 }

/-- A concrete input with no touch and no coin spawn. -/
noncomputable def i0 : Input := ⟨false, false, ⟨0, 0⟩⟩

lemma gPlay_v_norm : gPlay.player.v.Norm = 2 := by
  show Vector2D.Norm ⟨2, 0⟩ = 2
  rw [Vector2D.Norm]
  rw [show ((2:ℝ)) ^ 2 + (0:ℝ) ^ 2 = 2 ^ 2 by norm_num,
    Real.sqrt_sq (by norm_num : (0:ℝ) ≤ 2)]

/-- C5 witness: at a concrete Playing state whose velocity already has
magnitude 2 and with no tap input, the post-tick magnitude is exactly 2. -/
theorem velocity_clamp_witness :
    gPlay.mode = GameMode.Playing ∧ gPlay.player.v.Norm = 2 ∧
    ((update gPlay i0).player.v).Norm = 2 :=
  ⟨rfl, gPlay_v_norm, (velocity_clamp gPlay i0 rfl).2 gPlay_v_norm rfl⟩

@[simp] lemma setNextMode_mode (g : Game) (m : GameMode) : (setNextMode g m).mode = m := rfl

@[simp] lemma setNextMode_player (g : Game) (m : GameMode) :
    (setNextMode g m).player = g.player := rfl

@[simp] lemma setNextMode_points (g : Game) (m : GameMode) :
    (setNextMode g m).points = g.points := rfl

@[simp] lemma setNextMode_score (g : Game) (m : GameMode) :
    (setNextMode g m).score = g.score := rfl

@[simp] lemma setNextMode_zoomScale (g : Game) (m : GameMode) :
    (setNextMode g m).zoomScale = g.zoomScale := rfl

@[simp] lemma setNextMode_tfapo (g : Game) (m : GameMode) :
    (setNextMode g m).ticksFromAllPointsOut = g.ticksFromAllPointsOut := rfl

@[simp] lemma tickIncr_mode (g : Game) : (tickIncr g).mode = g.mode := rfl

@[simp] lemma tickIncr_player (g : Game) : (tickIncr g).player = g.player := rfl

@[simp] lemma tickIncr_points (g : Game) : (tickIncr g).points = g.points := rfl

@[simp] lemma tickIncr_score (g : Game) : (tickIncr g).score = g.score := rfl

@[simp] lemma tickIncr_coins (g : Game) : (tickIncr g).coins = g.coins := rfl

@[simp] lemma tickIncr_zoomScale (g : Game) : (tickIncr g).zoomScale = g.zoomScale := rfl

@[simp] lemma tickIncr_tfapo (g : Game) :
    (tickIncr g).ticksFromAllPointsOut = g.ticksFromAllPointsOut := rfl

@[simp] lemma tickIncr_ticks (g : Game) :
    (tickIncr g).ticksFromModeStart = g.ticksFromModeStart + 1 := rfl

@[simp] lemma playingBody_mode (g : Game) (i : Input) : (playingBody g i).mode = g.mode := rfl

@[simp] lemma playingBody_ticks (g : Game) (i : Input) :
    (playingBody g i).ticksFromModeStart = g.ticksFromModeStart := rfl

@[simp] lemma playingBody_life (g : Game) (i : Input) :
    (playingBody g i).player.life = (playingHit g i).life := rfl

@[simp] lemma playingBody_v (g : Game) (i : Input) :
    (playingBody g i).player.v = playingVel g i := rfl

@[simp] lemma playingBody_tfapo (g : Game) (i : Input) :
    (playingBody g i).ticksFromAllPointsOut = (playingTrim g i).2 := rfl

lemma updatePlaying_life (g : Game) (i : Input) :
    (updatePlaying g i).player.life = (playingHit g i).life := by
  rw [updatePlaying_player]; rfl

lemma updatePlaying_mode_cases (g : Game) (i : Input) :
    ((updatePlaying g i).mode = GameMode.GameOver ∧
      ((playingHit g i).life ≤ 0 ∨ (playingTrim g i).2 > 160)) ∨
    (updatePlaying g i = playingBody g i ∧ 0 < (playingHit g i).life ∧
      (playingTrim g i).2 ≤ 160) := by
  unfold updatePlaying
  split_ifs with hc
  · exact Or.inl ⟨rfl, hc⟩
  · push_neg at hc
    exact Or.inr ⟨rfl, hc.1, hc.2⟩

/-- C6: mode transitions are strictly linear.  A Title tick stays in Title
or moves to Playing (exactly on a touch); a Playing tick stays in Playing
or moves to GameOver, and it moves to GameOver exactly when the life at the
end of the tick is at most 0 or the off-screen counter exceeds 160; a
GameOver tick stays in GameOver or returns to Title via reinitialization. -/
theorem mode_transitions (g : Game) (i : Input) :
    (g.mode = GameMode.Title →
      ((update g i).mode = GameMode.Title ∨ (update g i).mode = GameMode.Playing) ∧
      ((update g i).mode = GameMode.Playing ↔ i.touched = true)) ∧
    (g.mode = GameMode.Playing →
      ((update g i).mode = GameMode.Playing ∨ (update g i).mode = GameMode.GameOver) ∧
      ((update g i).mode = GameMode.GameOver ↔
        ((update g i).player.life ≤ 0 ∨ (update g i).ticksFromAllPointsOut > 160))) ∧
    (g.mode = GameMode.GameOver →
      ((update g i).mode = GameMode.GameOver ∨ (update g i).mode = GameMode.Title)) := by
  refine ⟨fun h => ?_, fun h => ?_, fun h => ?_⟩
  · simp only [update, h]
    cases htc : i.touched <;> simp [h]
  · rw [update_of_playing g i h]
    rcases updatePlaying_mode_cases (tickIncr g) i with ⟨hm, hcond⟩ | ⟨he, hlife, htf⟩
    · refine ⟨Or.inr hm, ?_⟩
      rw [hm, updatePlaying_life, updatePlaying_tfapo]
      exact iff_of_true rfl hcond
    · rw [he]
      refine ⟨Or.inl (by simp [h]), ?_⟩
      simp only [playingBody_mode, tickIncr_mode, h, playingBody_life, playingBody_tfapo]
      constructor
      · intro hbad
        exact absurd hbad (by simp)
      · intro hbad
        rcases hbad with hbad | hbad
        · linarith
        · omega
  · simp only [update, h]
    split_ifs with hc
    · exact Or.inr rfl
    · exact Or.inl (by simp [h])

/-- C6 witness: at a concrete Playing state the tick stays in Playing or
moves to GameOver. -/
theorem mode_transitions_witness :
    gPlay.mode = GameMode.Playing ∧
    ((update gPlay i0).mode = GameMode.Playing ∨
      (update gPlay i0).mode = GameMode.GameOver) :=
  ⟨rfl, ((mode_transitions gPlay i0).2.1 rfl).1⟩

lemma processHits_life (pos : Vector2D) (r : ℝ) (cs : List Coin) (score : ℤ)
    (effs : List CoinHitEffect) (life : ℝ) :
    (0 ≤ life → 0 ≤ (processHits pos r cs score effs life).life) ∧
    (life ≤ 100 → (processHits pos r cs score effs life).life ≤ 100) ∧
    ((∃ k : ℕ, life = k * (1 / 5)) →
      ∃ k : ℕ, (processHits pos r cs score effs life).life = k * (1 / 5)) := by
  induction cs generalizing score effs life with
  | nil => exact ⟨id, id, id⟩
  | cons c cs ih =>
      by_cases hc : hitCond pos r c
      · simp only [processHits, if_pos hc]
        refine ⟨fun h0 => (ih _ _ _).1 ?_, fun h100 => (ih _ _ _).2.1 ?_,
          fun hk => (ih _ _ _).2.2 ?_⟩
        · split_ifs <;> linarith
        · split_ifs <;> linarith
        · obtain ⟨k, hk⟩ := hk
          split_ifs
          · exact ⟨500, by norm_num⟩
          · exact ⟨k + 250, by rw [hk]; push_cast; ring⟩
      · simp only [processHits, if_neg hc]
        exact ih _ _ _

/-- The inductive invariant behind the life bounds: life lies in `[0, 100]`,
is a multiple of the per-tick decrement `1/5`, and is strictly positive
outside GameOver mode. -/
def LifeInv (g : Game) : Prop :=
  0 ≤ g.player.life ∧ g.player.life ≤ 100 ∧
  (∃ k : ℕ, g.player.life = k * (1 / 5)) ∧
  (g.mode ≠ GameMode.GameOver → 0 < g.player.life)

lemma lifeInv_initGame : LifeInv initGame := by
  refine ⟨?_, ?_, ⟨500, ?_⟩, fun _ => ?_⟩ <;> norm_num [LifeInv, initGame]

lemma lifeInv_of_same (g g' : Game) (hp : g'.player.life = g.player.life)
    (hm : g'.mode = g.mode) (h : LifeInv g) : LifeInv g' := by
  unfold LifeInv at h ⊢
  rw [hp, hm]
  exact h

/-- C2: from any state satisfying the life invariant (established at
initialization), the life after one `Update` stays within `[0, 100]` in
every mode, the invariant is preserved, and in Playing mode a life at or
below 0 at the end of the tick forces GameOver mode in that same tick. -/
theorem life_bounds (g : Game) (i : Input) (hInv : LifeInv g) :
    LifeInv initGame ∧
    LifeInv (update g i) ∧
    (0 ≤ (update g i).player.life ∧ (update g i).player.life ≤ 100) ∧
    (g.mode = GameMode.Playing → (update g i).player.life ≤ 0 →
      (update g i).mode = GameMode.GameOver) := by
  obtain ⟨h0, h100, ⟨k, hk⟩, hpos⟩ := hInv
  have main : LifeInv (update g i) ∧
      (g.mode = GameMode.Playing → (update g i).player.life ≤ 0 →
        (update g i).mode = GameMode.GameOver) := by
    cases hm : g.mode with
    | Title =>
        simp only [update, hm]
        refine ⟨?_, fun hp => absurd hp (by simp)⟩
        cases htc : i.touched
        · rw [if_neg Bool.false_ne_true]
          exact lifeInv_of_same _ _ rfl rfl ⟨h0, h100, ⟨k, hk⟩, hpos⟩
        · rw [if_pos rfl]
          exact ⟨h0, h100, ⟨k, hk⟩, fun _ => hpos (by simp [hm])⟩
    | Playing =>
        rw [update_of_playing g i hm]
        have hgpos : 0 < g.player.life := hpos (by simp [hm])
        have hk1 : 1 ≤ k := by
          rcases Nat.eq_zero_or_pos k with rfl | hpk
          · rw [hk] at hgpos; norm_num at hgpos
          · exact hpk
        have hkR : (1 : ℝ) ≤ k := by exact_mod_cast hk1
        have hlife0 : 0 ≤ playingLife1 (tickIncr g) := by
          show 0 ≤ (tickIncr g).player.life - 0.2
          rw [tickIncr_player, hk]
          norm_num
          linarith
        have hlife100 : playingLife1 (tickIncr g) ≤ 100 := by
          show (tickIncr g).player.life - 0.2 ≤ 100
          rw [tickIncr_player]
          linarith
        have hlifek : ∃ kp : ℕ, playingLife1 (tickIncr g) = kp * (1 / 5) := by
          refine ⟨k - 1, ?_⟩
          show (tickIncr g).player.life - 0.2 = ((k - 1 : ℕ) : ℝ) * (1 / 5)
          rw [tickIncr_player, hk]
          push_cast [Nat.cast_sub hk1]
          ring
        have hPH : (playingHit (tickIncr g) i).life =
            (processHits (playingPos (tickIncr g) i) (tickIncr g).player.r
              (playingCoins2 (tickIncr g) i) (tickIncr g).score
              (playingEffs1 (tickIncr g)) (playingLife1 (tickIncr g))).life := rfl
        have hres := processHits_life (playingPos (tickIncr g) i) (tickIncr g).player.r
          (playingCoins2 (tickIncr g) i) (tickIncr g).score
          (playingEffs1 (tickIncr g)) (playingLife1 (tickIncr g))
        have hres0 : 0 ≤ (playingHit (tickIncr g) i).life := by
          rw [hPH]; exact hres.1 hlife0
        have hres100 : (playingHit (tickIncr g) i).life ≤ 100 := by
          rw [hPH]; exact hres.2.1 hlife100
        have hresk : ∃ kp : ℕ, (playingHit (tickIncr g) i).life = kp * (1 / 5) := by
          rw [hPH]; exact hres.2.2 hlifek
        rcases updatePlaying_mode_cases (tickIncr g) i with ⟨hmode, _⟩ | ⟨heq, hlpos, _⟩
        · refine ⟨⟨?_, ?_, ?_, fun hne => absurd hmode hne⟩, fun _ _ => hmode⟩
          · rw [updatePlaying_life]; exact hres0
          · rw [updatePlaying_life]; exact hres100
          · rw [updatePlaying_life]; exact hresk
        · refine ⟨⟨?_, ?_, ?_, fun _ => ?_⟩, fun _ hle => ?_⟩
          · rw [updatePlaying_life]; exact hres0
          · rw [updatePlaying_life]; exact hres100
          · rw [updatePlaying_life]; exact hresk
          · rw [heq, playingBody_life]; exact hlpos
          · rw [updatePlaying_life] at hle; linarith
    | GameOver =>
        simp only [update, hm]
        refine ⟨?_, fun hp => absurd hp (by simp)⟩
        split_ifs with hc
        · exact lifeInv_initGame
        · exact lifeInv_of_same _ _ rfl rfl ⟨h0, h100, ⟨k, hk⟩, hpos⟩
  exact ⟨lifeInv_initGame, main.1, ⟨main.1.1, main.1.2.1⟩, main.2⟩

lemma lifeInv_gPlay : LifeInv gPlay := by
  refine ⟨?_, ?_, ⟨250, ?_⟩, fun _ => ?_⟩ <;> norm_num [gPlay]

/-- C2 witness: at a concrete Playing state satisfying the life invariant,
the post-tick life lies within `[0, 100]`. -/
theorem life_bounds_witness :
    LifeInv gPlay ∧ 0 ≤ (update gPlay i0).player.life ∧
    (update gPlay i0).player.life ≤ 100 :=
  ⟨lifeInv_gPlay, (life_bounds gPlay i0 lifeInv_gPlay).2.2.1.1,
   (life_bounds gPlay i0 lifeInv_gPlay).2.2.1.2⟩

lemma processHits_score (pos : Vector2D) (r : ℝ) (cs : List Coin) (score : ℤ)
    (effs : List CoinHitEffect) (life : ℝ) :
    (processHits pos r cs score effs life).score =
      score + (cs.map (fun c =>
        if hitCond pos r c then (if c.Z < coinHitZ then (1000 : ℤ) else 200) else 0)).sum := by
  induction cs generalizing score effs life with
  | nil => simp [processHits]
  | cons c cs ih =>
      by_cases hc : hitCond pos r c
      · simp only [processHits, if_pos hc, List.map_cons, List.sum_cons, ih]
        ring
      · simp only [processHits, if_neg hc, List.map_cons, List.sum_cons, ih, if_neg hc]
        ring

/-- C4: in Playing mode the score never decreases across a tick, and the
coin-hit loop adds, for each colliding coin, exactly 1000 points when the
coin's depth at the hit instant is strictly below `coinHitZ = 180` and
exactly 200 points otherwise. -/
theorem score_gain (g : Game) (i : Input) :
    (g.mode = GameMode.Playing → g.score ≤ (update g i).score) ∧
    ∀ (pos : Vector2D) (r : ℝ) (cs : List Coin) (score : ℤ)
      (effs : List CoinHitEffect) (life : ℝ),
      (processHits pos r cs score effs life).score =
        score + (cs.map (fun c =>
          if hitCond pos r c then (if c.Z < coinHitZ then (1000 : ℤ) else 200) else 0)).sum := by
  refine ⟨fun h => ?_, processHits_score⟩
  rw [update_of_playing g i h, updatePlaying_score]
  have e : (playingHit (tickIncr g) i).score =
      (processHits (playingPos (tickIncr g) i) (tickIncr g).player.r
        (playingCoins2 (tickIncr g) i) (tickIncr g).score
        (playingEffs1 (tickIncr g)) (playingLife1 (tickIncr g))).score := rfl
  rw [e, processHits_score]
  have hsum : 0 ≤ ((playingCoins2 (tickIncr g) i).map (fun c =>
      if hitCond (playingPos (tickIncr g) i) (tickIncr g).player.r c then
        (if c.Z < coinHitZ then (1000 : ℤ) else 200) else 0)).sum := by
    apply List.sum_nonneg
    intro a ha
    simp only [List.mem_map] at ha
    obtain ⟨c, _, rfl⟩ := ha
    split_ifs <;> norm_num
  have : (tickIncr g).score = g.score := rfl
  linarith

/-- C4 witness: at a concrete Playing state the score does not decrease. -/
theorem score_gain_witness :
    gPlay.mode = GameMode.Playing ∧ gPlay.score ≤ (update gPlay i0).score :=
  ⟨rfl, (score_gain gPlay i0).1 rfl⟩

/-- The tier ceiling of the zoom-scale clamp as a function of the ticks
elapsed in Playing mode (src/main.go lines 240-248). -/
noncomputable def tierOf (t : ℕ) : ℝ :=
  if t < 60 * 60 then 1.010
  else if t < 75 * 60 then 1.015
  else if t < 90 * 60 then 1.020
  else 1.03

lemma tierOf_mono {t u : ℕ} (htu : t ≤ u) : tierOf t ≤ tierOf u := by
  unfold tierOf
  split_ifs <;> first | (exfalso; omega) | norm_num

lemma tierOf_le (t : ℕ) : tierOf t ≤ 1.03 := by
  unfold tierOf
  split_ifs <;> norm_num

lemma one_le_tierOf (t : ℕ) : 1 ≤ tierOf t := by
  unfold tierOf
  split_ifs <;> norm_num

lemma playingZoomScale_eq (g : Game) :
    playingZoomScale g = min (g.zoomScale * 1.00002) (tierOf g.ticksFromModeStart) := by
  unfold playingZoomScale tierOf
  split_ifs <;> rfl

/-- The inductive invariant behind the zoom-scale bounds: the scale lies in
`[1, 1.03]`, is at most the first tier ceiling while in Title mode, and is
at most the current tier ceiling while in Playing mode. -/
def ZInv (g : Game) : Prop :=
  1 ≤ g.zoomScale ∧ g.zoomScale ≤ 1.03 ∧
  (g.mode = GameMode.Title → g.zoomScale ≤ 1.010) ∧
  (g.mode = GameMode.Playing → g.zoomScale ≤ tierOf g.ticksFromModeStart)

lemma zInv_initGame : ZInv initGame := by
  refine ⟨?_, ?_, fun _ => ?_, fun h => ?_⟩
  · norm_num [initGame]
  · norm_num [initGame]
  · norm_num [initGame]
  · exact absurd h (by simp [initGame])

lemma playingZoomScale_ge_one (g : Game) (h1 : 1 ≤ g.zoomScale) :
    1 ≤ playingZoomScale g := by
  rw [playingZoomScale_eq]
  exact le_min (by nlinarith) (one_le_tierOf _)

lemma playingZoomScale_le_tier (g : Game) :
    playingZoomScale g ≤ tierOf g.ticksFromModeStart := by
  rw [playingZoomScale_eq]
  exact min_le_right _ _

lemma playingZoomScale_ge_self (g : Game) (h1 : 1 ≤ g.zoomScale)
    (h2 : g.zoomScale ≤ tierOf g.ticksFromModeStart) :
    g.zoomScale ≤ playingZoomScale g := by
  rw [playingZoomScale_eq]
  exact le_min (by nlinarith) h2

/-- C10: the zoom scale lies in `[1, 1.03]` after initialization and,
from any state satisfying the zoom invariant (established at
initialization), after every `Update`; and during a Playing session it
never decreases across a tick. -/
theorem zoomScale_bounds (g : Game) (i : Input) (hInv : ZInv g) :
    ZInv initGame ∧
    (1 ≤ initGame.zoomScale ∧ initGame.zoomScale ≤ 1.03) ∧
    ZInv (update g i) ∧
    (1 ≤ (update g i).zoomScale ∧ (update g i).zoomScale ≤ 1.03) ∧
    (g.mode = GameMode.Playing → g.zoomScale ≤ (update g i).zoomScale) := by
  obtain ⟨h1, h2, hTitle, hPlaying⟩ := hInv
  have main : ZInv (update g i) ∧
      (g.mode = GameMode.Playing → g.zoomScale ≤ (update g i).zoomScale) := by
    cases hm : g.mode with
    | Title =>
        simp only [update, hm]
        refine ⟨?_, fun hp => absurd hp (by simp)⟩
        cases htc : i.touched
        · rw [if_neg Bool.false_ne_true]
          exact ⟨h1, h2, fun _ => hTitle hm, fun hp => by simp [hm] at hp⟩
        · rw [if_pos rfl]
          refine ⟨h1, h2, fun hp => absurd hp (by simp), fun _ => ?_⟩
          show g.zoomScale ≤ tierOf 0
          calc g.zoomScale ≤ 1.010 := hTitle hm
            _ = tierOf 0 := by norm_num [tierOf]
    | Playing =>
        rw [update_of_playing g i hm]
        have hz : (updatePlaying (tickIncr g) i).zoomScale = playingZoomScale (tickIncr g) :=
          updatePlaying_zoomScale _ _
        have htier : g.zoomScale ≤ tierOf (tickIncr g).ticksFromModeStart := by
          show g.zoomScale ≤ tierOf (g.ticksFromModeStart + 1)
          calc g.zoomScale ≤ tierOf g.ticksFromModeStart := hPlaying hm
            _ ≤ tierOf (g.ticksFromModeStart + 1) := tierOf_mono (Nat.le_succ _)
        have hge1 : 1 ≤ playingZoomScale (tickIncr g) :=
          playingZoomScale_ge_one (tickIncr g) h1
        have hle : playingZoomScale (tickIncr g) ≤ tierOf (g.ticksFromModeStart + 1) :=
          playingZoomScale_le_tier (tickIncr g)
        have hle103 : playingZoomScale (tickIncr g) ≤ 1.03 :=
          le_trans hle (tierOf_le _)
        have hmono : g.zoomScale ≤ playingZoomScale (tickIncr g) :=
          playingZoomScale_ge_self (tickIncr g) h1 htier
        refine ⟨⟨?_, ?_, ?_, ?_⟩, fun _ => ?_⟩
        · rw [hz]; exact hge1
        · rw [hz]; exact hle103
        · intro hp
          rcases updatePlaying_mode_cases (tickIncr g) i with ⟨hmode, _⟩ | ⟨heq, _, _⟩
          · rw [hmode] at hp
            exact absurd hp (by simp)
          · rw [heq] at hp
            simp only [playingBody_mode, tickIncr_mode, hm] at hp
            exact absurd hp (by simp)
        · intro hp
          rcases updatePlaying_mode_cases (tickIncr g) i with ⟨hmode, _⟩ | ⟨heq, _, _⟩
          · rw [hmode] at hp
            exact absurd hp (by simp)
          · rw [heq]
            show playingZoomScale (tickIncr g) ≤ tierOf (g.ticksFromModeStart + 1)
            exact hle
        · rw [hz]; exact hmono
    | GameOver =>
        simp only [update, hm]
        refine ⟨?_, fun hp => absurd hp (by simp)⟩
        split_ifs with hc
        · exact zInv_initGame
        · exact ⟨h1, h2, fun hp => by simp [hm] at hp, fun hp => by simp [hm] at hp⟩
  refine ⟨zInv_initGame, ⟨by norm_num [initGame], by norm_num [initGame]⟩, main.1,
    ⟨main.1.1, main.1.2.1⟩, main.2⟩

lemma zInv_gPlay : ZInv gPlay := by
  refine ⟨?_, ?_, fun hp => absurd hp (by simp [gPlay]), fun _ => ?_⟩
  · norm_num [gPlay]
  · norm_num [gPlay]
  · show (1 : ℝ) ≤ tierOf 10
    norm_num [tierOf, gPlay]

/-- C10 witness: at a concrete Playing state satisfying the zoom invariant,
the post-tick zoom scale lies in `[1, 1.03]` and did not decrease. -/
theorem zoomScale_bounds_witness :
    ZInv gPlay ∧ 1 ≤ (update gPlay i0).zoomScale ∧
    (update gPlay i0).zoomScale ≤ 1.03 ∧
    gPlay.zoomScale ≤ (update gPlay i0).zoomScale :=
  ⟨zInv_gPlay, (zoomScale_bounds gPlay i0 zInv_gPlay).2.2.2.1.1,
   (zoomScale_bounds gPlay i0 zInv_gPlay).2.2.2.1.2,
   (zoomScale_bounds gPlay i0 zInv_gPlay).2.2.2.2 rfl⟩

lemma playingTfapo1_ne_zero (g : Game) (h : g.ticksFromAllPointsOut ≠ 0) :
    playingTfapo1 g ≠ 0 := by
  unfold playingTfapo1
  split_ifs <;> omega

lemma trimFrontAux_none (ps : List Vector2D) (h : ∀ p ∈ ps, ¬ insideRect p) :
    trimFrontAux ps = none := by
  induction ps with
  | nil => rfl
  | cons p rest ih =>
      rw [trimFrontAux, if_neg (h p (by simp))]
      exact ih (fun q hq => h q (by simp [hq]))

lemma trimFrontAux_some_ne_nil (ps qs : List Vector2D) (h : trimFrontAux ps = some qs) :
    qs ≠ [] := by
  induction ps with
  | nil => simp [trimFrontAux] at h
  | cons p rest ih =>
      rw [trimFrontAux] at h
      split_ifs at h
      · injection h with h2
        rw [← h2]
        simp
      · exact ih h

lemma trimFrontStep_snd_all_out (ps : List Vector2D) (tf : ℕ) (hne : ps ≠ [])
    (h : ∀ p ∈ ps, ¬ insideRect p) :
    (trimFrontStep ps tf).2 = if tf = 0 then tf + 1 else tf := by
  simp only [trimFrontStep, trimFrontAux_none ps h]
  have he : ps.isEmpty = false := by
    cases ps
    · exact absurd rfl hne
    · rfl
  rw [he]
  by_cases h0 : tf = 0
  · rw [if_pos ⟨h0, rfl⟩, if_pos h0]
  · rw [if_neg (fun hand => h0 hand.1), if_neg h0]

lemma trimFrontStep_fst_all_out (ps : List Vector2D) (tf : ℕ)
    (h : ∀ p ∈ ps, ¬ insideRect p) : (trimFrontStep ps tf).1 = ps := by
  simp only [trimFrontStep, trimFrontAux_none ps h]

lemma trimBack_all_out (ps : List Vector2D) (h : ∀ p ∈ ps, ¬ insideRect p) :
    trimBack ps = ps := by
  unfold trimBack
  rw [trimFrontAux_none ps.reverse (fun p hp => h p (List.mem_reverse.mp hp))]

lemma trimFrontStep_fst_ne_nil (ps : List Vector2D) (tf : ℕ) (h : ps ≠ []) :
    (trimFrontStep ps tf).1 ≠ [] := by
  unfold trimFrontStep
  cases haux : trimFrontAux ps with
  | none => simpa using h
  | some qs => simpa using trimFrontAux_some_ne_nil ps qs haux

lemma trimBack_ne_nil (ps : List Vector2D) (h : ps ≠ []) : trimBack ps ≠ [] := by
  unfold trimBack
  cases haux : trimFrontAux ps.reverse with
  | none => simpa using h
  | some qs =>
      have := trimFrontAux_some_ne_nil ps.reverse qs haux
      simpa using this

/-- C7: once the off-screen counter is non-zero the zoom transform step
leaves the boundary points unchanged while each coin is still zoomed about
the player; and on a Playing tick whose (post-subdivision) boundary point
sequence lies entirely outside the expanded screen rectangle, the
off-screen counter grows by exactly one. -/
theorem freeze_and_offscreen_counter (g : Game) (i : Input) :
    (g.ticksFromAllPointsOut ≠ 0 → playingPts2 g i = playingPts1 g) ∧
    (∀ (cen : Vector2D) (zs : ℝ) (c : Coin),
      (updateCoin cen zs c).X = (zoom ⟨c.X, c.Y⟩ cen zs).X ∧
      (updateCoin cen zs c).Y = (zoom ⟨c.X, c.Y⟩ cen zs).Y) ∧
    (g.mode = GameMode.Playing →
      playingPts2 (tickIncr g) i ≠ [] →
      (∀ p ∈ playingPts2 (tickIncr g) i, ¬ insideRect p) →
      (update g i).ticksFromAllPointsOut = g.ticksFromAllPointsOut + 1) := by
  refine ⟨fun h => ?_, fun cen zs c => ⟨rfl, rfl⟩, fun hm hne hout => ?_⟩
  · rw [playingPts2, if_neg (playingTfapo1_ne_zero g h)]
  · rw [update_of_playing g i hm, updatePlaying_tfapo]
    show (trimFrontStep (playingPts2 (tickIncr g) i) (playingTfapo1 (tickIncr g))).2 =
      g.ticksFromAllPointsOut + 1
    rw [trimFrontStep_snd_all_out _ _ hne hout]
    have e : playingTfapo1 (tickIncr g) =
        if g.ticksFromAllPointsOut = 0 then 0 else g.ticksFromAllPointsOut + 1 := by
      unfold playingTfapo1
      rw [tickIncr_tfapo]
      split_ifs <;> omega
    rw [e]
    by_cases h0 : g.ticksFromAllPointsOut = 0
    · rw [if_pos h0, if_pos rfl]
      omega
    · rw [if_neg h0, if_neg (by omega)]

lemma playingPts2_gPlay :
    playingPts2 (tickIncr gPlay) i0 =
      [⟨-100, -100⟩, ⟨-100, -100⟩, ⟨-100, -100⟩, ⟨-100, -100⟩, ⟨-100, -100⟩] := by
  have ht : playingTfapo1 (tickIncr gPlay) ≠ 0 := by
    apply playingTfapo1_ne_zero
    norm_num [tickIncr, gPlay]
  rw [playingPts2, if_neg ht, playingPts1,
    if_pos (by norm_num [tickIncr, gPlay] : (tickIncr gPlay).points.length < 500)]
  show expandPoints gPlay.points = _
  show expandPoints [⟨-100, -100⟩, ⟨-100, -100⟩] = _
  simp only [expandPoints, expandSegs, expandLine, Vector2D.Sub, Vector2D.Div,
    Vector2D.Mul, Vector2D.Add, Vector2D.Rotate, List.tail_cons, List.append_nil,
    List.cons_append, List.nil_append, List.cons.injEq, and_true]
  norm_num

lemma gPlay_all_out : ∀ p ∈ playingPts2 (tickIncr gPlay) i0, ¬ insideRect p := by
  rw [playingPts2_gPlay]
  intro p hp
  simp only [List.mem_cons, List.not_mem_nil, or_false] at hp
  have : p = ⟨-100, -100⟩ := by
    rcases hp with h | h | h | h | h <;> exact h
  rw [this]
  intro hin
  have := hin.1
  norm_num at this

/-- C7 witness: at a concrete Playing state whose whole (post-subdivision)
boundary sequence is off-screen, one tick increments the counter by
exactly one. -/
theorem freeze_and_offscreen_counter_witness :
    gPlay.mode = GameMode.Playing ∧
    playingPts2 (tickIncr gPlay) i0 ≠ [] ∧
    (update gPlay i0).ticksFromAllPointsOut = gPlay.ticksFromAllPointsOut + 1 :=
  ⟨rfl, by rw [playingPts2_gPlay]; simp,
   (freeze_and_offscreen_counter gPlay i0).2.2 rfl
     (by rw [playingPts2_gPlay]; simp) gPlay_all_out⟩

lemma initGame_points_length : initGame.points.length = 3073 := by
  have h0 : basePoints.length = 4 := by simp [basePoints]
  have e1 := expandPoints_length basePoints (by rw [h0]; norm_num)
  rw [h0] at e1
  have e2 := expandPoints_length (expandPoints basePoints) (by rw [e1]; norm_num)
  rw [e1] at e2
  have e3 := expandPoints_length (expandPoints (expandPoints basePoints))
    (by rw [e2]; norm_num)
  rw [e2] at e3
  have e4 := expandPoints_length
    (expandPoints (expandPoints (expandPoints basePoints))) (by rw [e3]; norm_num)
  rw [e3] at e4
  have e5 := expandPoints_length
    (expandPoints (expandPoints (expandPoints (expandPoints basePoints))))
    (by rw [e4]; norm_num)
  rw [e4] at e5
  show (expandPoints (expandPoints (expandPoints (expandPoints
    (expandPoints basePoints))))).length = 3073
  rw [e5]

/-- C8: initialization applies the full chained subdivision pass exactly 5
times to the 4-point base shape (giving the deterministic 3073-point curve)
and leaves the game in Title mode; and the Playing-tick subdivision step
performs one further full pass exactly when the current point count is
strictly below 500, leaving the sequence unchanged otherwise. -/
theorem init_subdivision_policy :
    initGame.points = expandPoints^[5] basePoints ∧
    initGame.points.length = 3073 ∧
    initGame.mode = GameMode.Title ∧
    ∀ g : Game,
      (g.points.length < 500 → playingPts1 g = expandPoints g.points) ∧
      (500 ≤ g.points.length → playingPts1 g = g.points) := by
  refine ⟨rfl, initGame_points_length, rfl, fun g => ⟨fun h => ?_, fun h => ?_⟩⟩
  · rw [playingPts1, if_pos h]
  · rw [playingPts1, if_neg (by omega)]

/-- C8 witness: a concrete state with 2 points (below the 500 ceiling) is
subdivided by the Playing-tick step. -/
theorem init_subdivision_policy_witness :
    gPlay.points.length < 500 ∧ playingPts1 gPlay = expandPoints gPlay.points :=
  ⟨by norm_num [gPlay], (init_subdivision_policy.2.2.2 gPlay).1 (by norm_num [gPlay])⟩

lemma playingPts2_ne_nil (g : Game) (i : Input) (h2 : 2 ≤ g.points.length) :
    playingPts2 g i ≠ [] := by
  have h1 : playingPts1 g ≠ [] := by
    unfold playingPts1
    split_ifs with hlt
    · apply List.ne_nil_of_length_pos
      rw [expandPoints_length g.points h2]
      omega
    · apply List.ne_nil_of_length_pos
      omega
  unfold playingPts2
  split_ifs
  · simpa using h1
  · exact h1

/-- C9 (amended): the boundary sequence is non-empty after initialization;
the end-trimming loops remove points only when an on-screen point is found,
leave the sequence unchanged when every point is off-screen, and never empty
a non-empty sequence; and a Playing `Update` keeps the sequence non-empty
whenever it currently has at least two points — while outside Playing mode
the sequence is either untouched or reset to the initial curve.  (A
one-point sequence, which the trimming loops can produce, is the single
exception: its subdivision is empty.) -/
theorem points_nonempty_amended :
    initGame.points ≠ [] ∧
    (∀ (ps : List Vector2D) (tf : ℕ), (∀ p ∈ ps, ¬ insideRect p) →
      (trimFrontStep ps tf).1 = ps ∧ trimBack ps = ps) ∧
    (∀ (ps : List Vector2D) (tf : ℕ), ps ≠ [] →
      (trimFrontStep ps tf).1 ≠ [] ∧ trimBack ps ≠ []) ∧
    (∀ (g : Game) (i : Input), g.mode = GameMode.Playing → 2 ≤ g.points.length →
      (update g i).points ≠ []) ∧
    (∀ (g : Game) (i : Input), g.mode ≠ GameMode.Playing →
      (update g i).points = g.points ∨ (update g i).points = initGame.points) := by
  refine ⟨?_, ?_, ?_, ?_, ?_⟩
  · apply List.ne_nil_of_length_pos
    rw [initGame_points_length]
    omega
  · exact fun ps tf h => ⟨trimFrontStep_fst_all_out ps tf h, trimBack_all_out ps h⟩
  · exact fun ps tf h => ⟨trimFrontStep_fst_ne_nil ps tf h, trimBack_ne_nil ps h⟩
  · intro g i hm h2
    rw [update_of_playing g i hm, updatePlaying_points]
    show trimBack (trimFrontStep (playingPts2 (tickIncr g) i)
      (playingTfapo1 (tickIncr g))).1 ≠ []
    exact trimBack_ne_nil _ (trimFrontStep_fst_ne_nil _ _ (playingPts2_ne_nil _ _ h2))
  · intro g i hm
    cases hmode : g.mode with
    | Title =>
        simp only [update, hmode]
        split_ifs <;> exact Or.inl rfl
    | Playing => exact absurd hmode hm
    | GameOver =>
        simp only [update, hmode]
        split_ifs
        · exact Or.inr rfl
        · exact Or.inl rfl

/-- C9 witness: at a concrete Playing state with two boundary points the
post-tick sequence is non-empty. -/
theorem points_nonempty_amended_witness :
    gPlay.mode = GameMode.Playing ∧ 2 ≤ gPlay.points.length ∧
    (update gPlay i0).points ≠ [] :=
  ⟨rfl, by norm_num [gPlay],
   points_nonempty_amended.2.2.2.1 gPlay i0 rfl (by norm_num [gPlay])⟩

/-- A concrete Playing state whose boundary has exactly one on-screen point
(`x = 689 < 690`); one tick trims the curve down to that single point, and
the next tick's subdivision of a one-point polyline is empty. -/
noncomputable def gTwo : Game :=
  { mode := GameMode.Playing
    ticksFromModeStart := 10
    score := 0
    points := [⟨689, 250⟩, ⟨695, 250⟩]
    player := { pos := ⟨320, 250⟩, v := ⟨0, 0⟩, r := 5, life := 50 }
    coins := []
    coinHitEffects := []
    zoomScale := 1
    ticksFromAllPointsOut := 5 }

lemma gTwo_pts2 : playingPts2 (tickIncr gTwo) i0 =
    [⟨689, 250⟩, ⟨691, 250⟩, ⟨692, 250 + 2 * Real.sin (-(Real.pi / 3))⟩,
     ⟨693, 250⟩, ⟨695, 250⟩] := by
  have ht : playingTfapo1 (tickIncr gTwo) ≠ 0 := by
    apply playingTfapo1_ne_zero
    norm_num [tickIncr, gTwo]
  rw [playingPts2, if_neg ht, playingPts1,
    if_pos (by norm_num [tickIncr, gTwo] : (tickIncr gTwo).points.length < 500)]
  show expandPoints [⟨689, 250⟩, ⟨695, 250⟩] = _
  simp only [expandPoints, expandSegs, expandLine, Vector2D.Sub, Vector2D.Div,
    Vector2D.Mul, Vector2D.Add, Vector2D.Rotate, List.tail_cons, List.append_nil,
    List.cons_append, List.nil_append, List.cons.injEq, and_true]
  norm_num [Real.cos_neg, Real.cos_pi_div_three]
  ring

lemma in689 : insideRect (⟨689, 250⟩ : Vector2D) := by
  refine ⟨?_, ?_, ?_, ?_⟩ <;> norm_num [screenWidth, screenHeight]

lemma out695 : ¬ insideRect (⟨695, 250⟩ : Vector2D) :=
  fun h => absurd h.2.1 (by norm_num [screenWidth])

lemma out693 : ¬ insideRect (⟨693, 250⟩ : Vector2D) :=
  fun h => absurd h.2.1 (by norm_num [screenWidth])

lemma out692 : ¬ insideRect (⟨692, 250 + 2 * Real.sin (-(Real.pi / 3))⟩ : Vector2D) :=
  fun h => absurd h.2.1 (by norm_num [screenWidth])

lemma out691 : ¬ insideRect (⟨691, 250⟩ : Vector2D) :=
  fun h => absurd h.2.1 (by norm_num [screenWidth])

lemma gTwo_trim_front :
    trimFrontStep (playingPts2 (tickIncr gTwo) i0) (playingTfapo1 (tickIncr gTwo)) =
      (playingPts2 (tickIncr gTwo) i0, playingTfapo1 (tickIncr gTwo)) := by
  have haux : trimFrontAux (playingPts2 (tickIncr gTwo) i0) =
      some (playingPts2 (tickIncr gTwo) i0) := by
    rw [gTwo_pts2, trimFrontAux, if_pos in689]
  simp only [trimFrontStep, haux]

lemma gTwo_trim_back : trimBack (playingPts2 (tickIncr gTwo) i0) = [⟨689, 250⟩] := by
  rw [gTwo_pts2]
  unfold trimBack
  have e : ([⟨689, 250⟩, ⟨691, 250⟩, ⟨692, 250 + 2 * Real.sin (-(Real.pi / 3))⟩,
      ⟨693, 250⟩, ⟨695, 250⟩] : List Vector2D).reverse =
      [⟨695, 250⟩, ⟨693, 250⟩, ⟨692, 250 + 2 * Real.sin (-(Real.pi / 3))⟩,
       ⟨691, 250⟩, ⟨689, 250⟩] := by
    rfl
  rw [e, trimFrontAux, if_neg out695, trimFrontAux, if_neg out693, trimFrontAux,
    if_neg out692, trimFrontAux, if_neg out691, trimFrontAux, if_pos in689]
  rfl

lemma gTwo_first_update : update gTwo i0 = playingBody (tickIncr gTwo) i0 := by
  have hc2 : playingCoins2 (tickIncr gTwo) i0 = [] := by
    simp [playingCoins2, playingCoins1, i0, tickIncr, gTwo]
  have hlife : (playingHit (tickIncr gTwo) i0).life = 50 - 0.2 := by
    show (processHits (playingPos (tickIncr gTwo) i0) (tickIncr gTwo).player.r
      (playingCoins2 (tickIncr gTwo) i0) (tickIncr gTwo).score
      (playingEffs1 (tickIncr gTwo)) (playingLife1 (tickIncr gTwo))).life = 50 - 0.2
    rw [hc2]
    rfl
  have htf : (playingTrim (tickIncr gTwo) i0).2 = 6 := by
    show (trimFrontStep (playingPts2 (tickIncr gTwo) i0)
      (playingTfapo1 (tickIncr gTwo))).2 = 6
    rw [gTwo_trim_front]
    norm_num [playingTfapo1, tickIncr, gTwo]
  have hcond : ¬((playingBody (tickIncr gTwo) i0).player.life ≤ 0 ∨
      (playingBody (tickIncr gTwo) i0).ticksFromAllPointsOut > 160) := by
    push_neg
    constructor
    · rw [playingBody_life, hlife]
      norm_num
    · rw [playingBody_tfapo, htf]
      norm_num
  rw [update_of_playing gTwo i0 rfl]
  unfold updatePlaying
  rw [if_neg hcond]

lemma gTwo_first_points : (update gTwo i0).points = [⟨689, 250⟩] := by
  rw [gTwo_first_update]
  show trimBack (trimFrontStep (playingPts2 (tickIncr gTwo) i0)
    (playingTfapo1 (tickIncr gTwo))).1 = _
  rw [gTwo_trim_front]
  exact gTwo_trim_back

/-- C9 counterexample: a non-empty boundary sequence is not preserved by
`Update`.  At the concrete Playing state `gTwo` (two boundary points, one
on-screen), the first tick trims the sequence down to one point and the
second tick leaves it empty, so the unguarded first/last accesses of the
fractal draw routine would index an empty sequence. -/
theorem points_empty_counterexample :
    gTwo.points ≠ [] ∧ 2 ≤ gTwo.points.length ∧
    (update gTwo i0).points = [⟨689, 250⟩] ∧
    (update (update gTwo i0) i0).points = [] := by
  refine ⟨by simp [gTwo], by norm_num [gTwo], gTwo_first_points, ?_⟩
  have hmode : (update gTwo i0).mode = GameMode.Playing := by
    rw [gTwo_first_update]
    rfl
  rw [update_of_playing _ i0 hmode, updatePlaying_points]
  show trimBack (trimFrontStep (playingPts2 (tickIncr (update gTwo i0)) i0)
    (playingTfapo1 (tickIncr (update gTwo i0)))).1 = []
  have hpts : playingPts2 (tickIncr (update gTwo i0)) i0 = [] := by
    have hp : (tickIncr (update gTwo i0)).points = [⟨689, 250⟩] := by
      rw [tickIncr_points, gTwo_first_points]
    have h1 : playingPts1 (tickIncr (update gTwo i0)) = [] := by
      unfold playingPts1
      rw [hp, if_pos (by norm_num)]
      rfl
    unfold playingPts2
    rw [h1]
    split_ifs <;> simp
  rw [hpts]
  have haux : trimFrontAux ([] : List Vector2D) = none := rfl
  simp only [trimFrontStep, haux]
  rfl

end Fractal
